import Mathlib

/-!
# Verification of the smart-quiz-agent live quiz session engine

A shallow embedding of the live-quiz subsystem of `agent/src/prompts.ts`
(the `LiveSession` interface, the `/api/live/:code/*` route handlers and
the scoring switch of `/api/quizzes/:id/submit`), together with proofs
about the behaviour of those handlers.

Modelling conventions:
* JavaScript numbers that only ever hold integers are `Nat`/`Int`;
  the two floating-point expressions (percentage, matching partial
  credit, `Math.round` of the time budget) are modelled exactly over `ℚ`
  with `Math.round x = ⌊x + 1/2⌋` (half-up, as in JS for these
  non-negative values).
* A JS `Map` (insertion-ordered, unique keys) is a `List` in insertion
  order; `Map.get`/`Map.set` become `List.find?` / first-match update.
* Database writes performed by a handler are returned as an explicit
  list of records; SSE broadcasts are returned as a list of events.
* `JSON.parse` (a platform primitive, not repository code) is abstracted
  as parser arguments returning `Option`; a parse failure models the
  caught exception.
-/

namespace SmartQuiz

/-! ## String utilities (JS `trim`, `toLowerCase`, `split(" ")`, `includes`) -/

/-- Whitespace as trimmed by `String.prototype.trim` (ASCII portion). -/
def isWS (c : Char) : Bool :=
  c = ' ' ∨ c = '\t' ∨ c = '\n' ∨ c = '\r'

/-- Trim whitespace from both ends of a character list. -/
def trimChars (l : List Char) : List Char :=
  ((l.dropWhile isWS).reverse.dropWhile isWS).reverse

/-- JS `s.trim().toLowerCase()` (ASCII case folding). -/
def jsNorm (s : String) : String :=
  ⟨(trimChars s.data).map Char.toLower⟩

/-- JS `s.toLowerCase()` alone. -/
def jsLower (s : String) : String :=
  ⟨s.data.map Char.toLower⟩

/-- Does `hay` start with `needle`? -/
def startsWithL : List Char → List Char → Bool
  | _, [] => true
  | [], _ :: _ => false
  | a :: t, b :: u => a = b && startsWithL t u

/-- JS `hay.includes(needle)` over character lists. -/
def containsSub : List Char → List Char → Bool
  | hay, needle =>
    if startsWithL hay needle then true
    else match hay with
      | [] => false
      | _ :: t => containsSub t needle

/-- JS `s.split(" ")` (split on every single space character). -/
def splitSp : List Char → List (List Char)
  | [] => [[]]
  | c :: t =>
    match splitSp t with
    | [] => [[]]
    | w :: ws => if c = ' ' then [] :: w :: ws else (c :: w) :: ws

/-- JS `Math.round` on an exact rational: round half toward `+∞`. -/
def jsRoundQ (x : ℚ) : Int :=
  Int.fdiv (2 * x.num + (x.den : Int)) (2 * (x.den : Int))

/-- JS `Math.round (num / den)` for natural `num`, `den` (`den > 0`). -/
def jsRoundNat (num den : Nat) : Nat :=
  (2 * num + den) / (2 * den)

/-! ## Data model (`LiveSession` interface, `prompts.ts` lines 185–203) -/

/-- Shapes the repository stores in the `options` JSON column
(`tools/index.ts` question generation): `mcq`/`true_false` store an
array of strings, `fill_in_blank` stores `{sentence, acceptable}`,
`matching` stores `{pairs: [{left, right}]}`, `ordering` stores
`{items, correct_order}`. -/
inductive QOptions where
  | none
  | choices (items : List String)
  | fillBlank (sentence : String) (acceptable : List String)
  | matching (pairs : List (String × String))
  | ordering (items : List String) (correct_order : List Int)
deriving DecidableEq, Repr

/-- A question snapshot as copied into a live session
(`prompts.ts` lines 1516–1524). -/
structure Question where
  id : String
  question_text : String
  question_type : String
  options : QOptions
  correct_answer : String
  marks : Nat
  difficulty : String
deriving DecidableEq, Repr

instance : Inhabited Question :=
  ⟨{ id := "", question_text := "", question_type := "", options := .none,
     correct_answer := "", marks := 0, difficulty := "" }⟩

/-- One per-question answer record of a participant
(`participant.answers.push` in the `/answer` handler).  `timeMs` keeps
the elapsed time in integer milliseconds; the source stores
`timeMs / 1000` (a float), which carries exactly the same information
and is never read again by the subsystem. -/
structure AnswerRecord where
  questionIndex : Int
  answer : String
  correct : Bool
  timeMs : Int
deriving DecidableEq, Repr

/-- `LiveParticipant` (name, running score, answer records). -/
structure LiveParticipant where
  userId : String
  name : String
  score : Nat
  answers : List AnswerRecord
deriving DecidableEq, Repr

/-- Session status union `"waiting" | "question" | "results" | "ended"`
(`results` is declared in the TS type but never assigned). -/
inductive Status where
  | waiting
  | question
  | results
  | ended
deriving DecidableEq, Repr

/-- The in-memory live session state (`LiveSession` interface). The
`sseClients` array is the transport collaborator and is modelled by
returning broadcast events explicitly. -/
structure LiveSession where
  quizId : String
  teacherId : String
  status : Status
  currentQuestionIndex : Int
  questionStartedAt : Nat
  questionTimeLimit : ℚ
  participants : List LiveParticipant
  questions : List Question
deriving DecidableEq, Repr

/-- JS `session.questions[i]`: `undefined` (`none`) when out of range or
negative. -/
def qGet (qs : List Question) (i : Int) : Option Question :=
  if 0 ≤ i then qs[i.toNat]? else Option.none

/-- The question at `currentQuestionIndex` (only read by handlers in
states where the index is in range; `default` stands for the JS
`undefined` dereference, unreachable from real states). -/
def activeQuestion (s : LiveSession) : Question :=
  (qGet s.questions s.currentQuestionIndex).getD default

/-! ## Leaderboard -/

/-- One leaderboard row `{rank, name, score}`. -/
structure LBEntry where
  rank : Nat
  name : String
  score : Nat
deriving DecidableEq, Repr

/-- Insert into a score-descending list, after every element whose score
is `≥` the inserted score. -/
def insertDesc (p : LiveParticipant) : List LiveParticipant → List LiveParticipant
  | [] => [p]
  | q :: t => if q.score ≤ p.score then p :: q :: t else q :: insertDesc p t

/-- JS `array.sort((a, b) => b.score - a.score)`: `Array.prototype.sort`
is stable, and a stable sort under the total preorder "score descending"
is unique, so this stable insertion sort computes the same list. -/
def sortDesc : List LiveParticipant → List LiveParticipant
  | [] => []
  | p :: t => insertDesc p (sortDesc t)

/-- `Array.from(session.participants.values()).sort(...).map((p, i) => ...)`. -/
def leaderboardOf (ps : List LiveParticipant) : List LBEntry :=
  (sortDesc ps).enum.map (fun ip => ⟨ip.1 + 1, ip.2.name, ip.2.score⟩)

/-! ## Broadcast events and persisted records -/

/-- Payload of the `question` SSE event (`prompts.ts` lines 1654–1663). -/
structure QuestionEvent where
  index : Int
  total : Nat
  question_text : String
  question_type : String
  options : QOptions
  marks : Nat
  difficulty : String
  time_limit : Int
deriving DecidableEq, Repr

/-- SSE events emitted by the live handlers. -/
inductive Event where
  | participantJoined (user_id name : String) (participant_count : Nat)
  | question (payload : QuestionEvent)
  | answerUpdate (answered total : Nat)
  | quizEnded (leaderboard : List LBEntry)
deriving DecidableEq, Repr

/-- A `quiz_attempts` row inserted at finalization (random `id` and the
`submitted_at` timestamp, supplied by collaborators, are omitted). -/
structure AttemptRecord where
  quiz_id : String
  student_id : String
  total_marks : Nat
  score : Nat
  percentage : Nat
  status : String
deriving DecidableEq, Repr

/-- A `student_answers` row inserted at finalization. -/
structure AnswerResultRecord where
  question_id : String
  answer_text : String
  is_correct : Bool
  marks_awarded : Nat
  ai_feedback : String
deriving DecidableEq, Repr

/-- Everything persisted for one participant at finalization. -/
structure PersistRecord where
  attempt : AttemptRecord
  results : List AnswerResultRecord
deriving DecidableEq, Repr

/-- `totalMarks > 0 ? Math.round((score / totalMarks) * 100 * 100) / 100 : 0`,
kept in integer hundredths of a percent: the JS value (stored as a
decimal string) is exactly this divided by 100. -/
def pctHundredths (score totalMarks : Nat) : Nat :=
  if 0 < totalMarks then jsRoundNat (score * 10000) totalMarks else 0

/-- The finalization loop body for one participant
(`prompts.ts` lines 1615–1644): one attempt row plus one answer row per
stored answer whose question lookup succeeds (`if (q)`). -/
def finalizeParticipant (s : LiveSession) (p : LiveParticipant) : PersistRecord :=
  let totalMarks := (s.questions.map (·.marks)).sum
  { attempt :=
      { quiz_id := s.quizId
        student_id := p.userId
        total_marks := totalMarks
        score := p.score
        percentage := pctHundredths p.score totalMarks
        status := "evaluated" }
    results := p.answers.filterMap (fun a =>
      (qGet s.questions a.questionIndex).map (fun q =>
        { question_id := q.id
          answer_text := a.answer
          is_correct := a.correct
          marks_awarded := if a.correct then q.marks else 0
          ai_feedback :=
            if a.correct then "Correct!"
            else "Incorrect. The correct answer is: " ++ q.correct_answer })) }

/-! ## Error taxonomy and handler outputs -/

/-- Caller-visible error conditions of the live handlers (each is an
early `return` with an error JSON in the source). -/
inductive LiveError where
  | sessionEnded
  | notHost
  | noActiveQuestion
  | notParticipant
  | alreadyAnswered
deriving DecidableEq, Repr

/-- Result of one handler call: the session afterwards, the SSE events
broadcast, the database rows written, and the response (or error). -/
instance {ε α : Type} [DecidableEq ε] [DecidableEq α] : DecidableEq (Except ε α) :=
  fun a b =>
    match a, b with
    | .error e, .error f =>
        decidable_of_iff (e = f) ⟨fun h => by rw [h], fun h => by cases h; rfl⟩
    | .error _, .ok _ => isFalse (fun h => by cases h)
    | .ok _, .error _ => isFalse (fun h => by cases h)
    | .ok x, .ok y =>
        decidable_of_iff (x = y) ⟨fun h => by rw [h], fun h => by cases h; rfl⟩

structure HOut (ρ : Type) where
  session : LiveSession
  events : List Event
  persists : List PersistRecord
  result : Except LiveError ρ
deriving Repr, DecidableEq

/-- An error response leaves everything untouched. -/
def errOut {ρ : Type} (s : LiveSession) (e : LiveError) : HOut ρ :=
  { session := s, events := [], persists := [], result := .error e }

/-! ## Route handlers -/

/-- `quiz.time_limit_minutes || 30`: JS `||` replaces both `null` and
`0` by the default. -/
def jsOrDefault (v : Option Nat) (d : Nat) : Nat :=
  match v with
  | Option.none => d
  | Option.some 0 => d
  | Option.some k => k

/-- `POST /api/quizzes/:id/start-live` (lines 1507–1527): the freshly
registered session.  Quiz lookup/publication checks and the join-code
collision loop belong to collaborators outside the session state. -/
def createSession (quizId teacherId : String) (time_limit_minutes : Option Nat)
    (qs : List Question) : LiveSession :=
  { quizId := quizId
    teacherId := teacherId
    status := .waiting
    currentQuestionIndex := -1
    questionStartedAt := 0
    questionTimeLimit := (jsOrDefault time_limit_minutes 30 * 60 : ℚ) / qs.length
    participants := []
    questions := qs }

/-- Response of the `join` handler. -/
structure JoinResp where
  status : Status
  participant_count : Nat
  question_count : Nat
deriving DecidableEq, Repr

/-- `POST /api/live/:code/join` (lines 1564–1594).  `name` is the
display name the handler reads from the `users` table (identity
collaborator). -/
def join (s : LiveSession) (userId name : String) : HOut JoinResp :=
  if s.status = .ended then errOut s .sessionEnded
  else
    let reg := s.participants.any (fun p => p.userId = userId)
    let s' :=
      if reg then s
      else { s with participants :=
               s.participants ++ [{ userId := userId, name := name, score := 0, answers := [] }] }
    let evs :=
      if reg then []
      else [Event.participantJoined userId name s'.participants.length]
    { session := s'
      events := evs
      persists := []
      result := .ok { status := s'.status
                      participant_count := s'.participants.length
                      question_count := s'.questions.length } }

/-- Response of the `next` handler. -/
structure NextResp where
  status : Status
  question_index : Int
  total_questions : Nat
  leaderboard : List LBEntry
deriving DecidableEq, Repr

/-- `POST /api/live/:code/next` (lines 1596–1670).  Note: the handler
checks host identity but performs no check of the current status, so it
runs its ended branch (broadcast + persistence) again whenever the
incremented index is out of range, even if the session already ended. -/
def next (s : LiveSession) (callerId : String) (now : Nat) : HOut NextResp :=
  if s.teacherId ≠ callerId then errOut s .notHost
  else
    let s1 : LiveSession := { s with currentQuestionIndex := s.currentQuestionIndex + 1 }
    if (s1.questions.length : Int) ≤ s1.currentQuestionIndex then
      -- "Quiz is over"
      let s2 : LiveSession := { s1 with status := .ended }
      let lb := leaderboardOf s2.participants
      { session := s2
        events := [Event.quizEnded lb]
        persists := s2.participants.map (finalizeParticipant s2)
        result := .ok { status := .ended, question_index := s2.currentQuestionIndex,
                        total_questions := s2.questions.length, leaderboard := lb } }
    else
      let s2 : LiveSession := { s1 with status := .question, questionStartedAt := now }
      let q := activeQuestion s2
      { session := s2
        events := [Event.question
          { index := s2.currentQuestionIndex
            total := s2.questions.length
            question_text := q.question_text
            question_type := q.question_type
            options := q.options
            marks := q.marks
            difficulty := q.difficulty
            time_limit := jsRoundQ s2.questionTimeLimit }]
        persists := []
        result := .ok { status := .question, question_index := s2.currentQuestionIndex,
                        total_questions := s2.questions.length, leaderboard := [] } }

/-- Live-mode correctness check (`/answer` handler, line 1692): plain
case-insensitive trimmed string equality for every question type. -/
def liveCheck (q : Question) (answer : String) : Bool :=
  jsNorm answer = jsNorm q.correct_answer

/-- Replace the first participant whose `userId` matches (JS `Map`
entries are unique, mutation through `participants.get`). -/
def updateFirst (u : String) (f : LiveParticipant → LiveParticipant) :
    List LiveParticipant → List LiveParticipant
  | [] => []
  | p :: t => if p.userId = u then f p :: t else p :: updateFirst u f t

/-- Response of the `answer` handler. -/
structure SubmitResp where
  correct : Bool
  score : Nat
deriving DecidableEq, Repr

/-- The mutation `submitAnswer` applies to the found participant on
acceptance: `if (isCorrect) participant.score += q.marks` followed by
`participant.answers.push({...})`. -/
def submitUpd (s : LiveSession) (answer : String) (now : Nat)
    (p : LiveParticipant) : LiveParticipant :=
  { p with
    score := p.score
      + (if liveCheck (activeQuestion s) answer then (activeQuestion s).marks else 0)
    answers := p.answers
      ++ [{ questionIndex := s.currentQuestionIndex, answer := answer,
            correct := liveCheck (activeQuestion s) answer,
            timeMs := (now : Int) - (s.questionStartedAt : Int) }] }

/-- `POST /api/live/:code/answer` (lines 1672–1717). -/
def submitAnswer (s : LiveSession) (userId answer : String) (now : Nat) : HOut SubmitResp :=
  if s.status ≠ .question then errOut s .noActiveQuestion
  else
    match s.participants.find? (fun p => p.userId = userId) with
    | Option.none => errOut s .notParticipant
    | Option.some participant =>
      if participant.answers.any (fun a => a.questionIndex = s.currentQuestionIndex) then
        errOut s .alreadyAnswered
      else
        let s' : LiveSession :=
          { s with participants := updateFirst userId (submitUpd s answer now) s.participants }
        let answered := (s'.participants.filter (fun p =>
          p.answers.any (fun a => a.questionIndex = s'.currentQuestionIndex))).length
        { session := s'
          events := [Event.answerUpdate answered s'.participants.length]
          persists := []
          result := .ok { correct := liveCheck (activeQuestion s) answer,
                          score := (submitUpd s answer now participant).score } }

/-- Response of the `end` handler. -/
structure EndResp where
  status : Status
  leaderboard : List LBEntry
deriving DecidableEq, Repr

/-- `POST /api/live/:code/end` (lines 1719–1734).  The handler receives
the caller's identity but never compares it with `teacherId`, checks no
status, and persists nothing (the 60 s registry cleanup timer is a
registry concern). -/
def endSession (s : LiveSession) (callerId : String) : HOut EndResp :=
  let _ := callerId
  let s' : LiveSession := { s with status := .ended }
  let lb := leaderboardOf s'.participants
  { session := s'
    events := [Event.quizEnded lb]
    persists := []
    result := .ok { status := .ended, leaderboard := lb } }

/-! ## Asynchronous (non-live) scoring switch
(`POST /api/quizzes/:id/submit`, lines 1056–1139) -/

/-- `opts?.acceptable || [q.correct_answer]` for `fill_in_blank`:
an `acceptable` array is used whenever present (JS `||` keeps even an
empty array, which is truthy), otherwise the canonical answer. -/
def acceptableOf (q : Question) : List String :=
  match q.options with
  | .fillBlank _ acc => acc
  | _ => [q.correct_answer]

/-- Case-insensitive trimmed equality of one (left, right) pair. -/
def pairEqCI (sp cp : String × String) : Bool :=
  jsNorm sp.1 = jsNorm cp.1 ∧ jsNorm sp.2 = jsNorm cp.2

/-- The per-question scoring switch of the asynchronous submit handler,
returning `(is_correct, marks_awarded)`.  `parsePairs` / `parseInts`
abstract `JSON.parse` (platform primitive); `Option.none` models the
exception caught by the surrounding `try`/`catch` (or a non-array value,
which likewise scores zero). -/
def asyncScoreOne (parsePairs : String → Option (List (String × String)))
    (parseInts : String → Option (List Int)) (q : Question) (answer : String) :
    Bool × Nat :=
  if q.question_type = "mcq" ∨ q.question_type = "true_false" then
    let isCorrect := jsNorm answer = jsNorm q.correct_answer
    (isCorrect, if isCorrect then q.marks else 0)
  else if q.question_type = "fill_in_blank" then
    let acceptable := (acceptableOf q).map jsNorm
    let isCorrect := acceptable.contains (jsNorm answer)
    (isCorrect, if isCorrect then q.marks else 0)
  else if q.question_type = "matching" then
    match parsePairs answer, parsePairs q.correct_answer with
    | Option.some studentPairs, Option.some correctPairs =>
      let matchCount := correctPairs.countP (fun cp => studentPairs.any (fun sp => pairEqCI sp cp))
      let isCorrect := matchCount = correctPairs.length
      let marks := if 0 < correctPairs.length
        then jsRoundNat (q.marks * matchCount) correctPairs.length else 0
      (isCorrect, marks)
    | _, _ => (false, 0)
  else if q.question_type = "ordering" then
    match parseInts answer, parseInts q.correct_answer with
    | Option.some studentOrder, Option.some correctOrder =>
      let isCorrect := studentOrder = correctOrder
      (isCorrect, if isCorrect then q.marks else 0)
    | _, _ => (false, 0)
  else
    -- short answer (and any other type): exact match, else substring heuristic
    let studentLower := jsNorm answer
    let correctLower := jsNorm q.correct_answer
    if studentLower = correctLower then (true, q.marks)
    else if ((splitSp correctLower.data).filter (fun w => 3 < w.length)).any
        (fun w => containsSub studentLower.data w) then
      (false, (q.marks + 1) / 2)
    else (false, 0)

/-- Marks the live path adds for a submission (full-or-nothing). -/
def liveMarks (q : Question) (answer : String) : Nat :=
  if liveCheck q answer then q.marks else 0

/-! ## Operation sequences and reachable session states -/

/-- One call to a state-mutating live entry point. -/
inductive Op where
  | join (userId name : String)
  | advance (callerId : String) (now : Nat)
  | submit (userId answer : String) (now : Nat)
  | endS (callerId : String)

/-- The session after one entry-point call (errors leave it unchanged). -/
def applyOp (s : LiveSession) : Op → LiveSession
  | .join u n => (join s u n).session
  | .advance c now => (next s c now).session
  | .submit u a now => (submitAnswer s u a now).session
  | .endS c => (endSession s c).session

/-- Session states reachable from a freshly created session by live
entry-point calls. -/
inductive Reachable : LiveSession → Prop
  | init (quizId teacherId : String) (tl : Option Nat) (qs : List Question) :
      Reachable (createSession quizId teacherId tl qs)
  | step {s : LiveSession} (op : Op) : Reachable s → Reachable (applyOp s op)

/-- Marks obtainable for an answer record: the marks of the question it
refers to, when the record is correct (0 for an out-of-range index,
matching the `if (q)` skip at finalization and the fact that
`submitAnswer` can only have added 0 there). -/
def recMarks (qs : List Question) (a : AnswerRecord) : Nat :=
  if a.correct then ((qGet qs a.questionIndex).map (·.marks)).getD 0 else 0

/-- Sum of the marks of the questions a participant answered correctly. -/
def recordedScore (qs : List Question) (l : List AnswerRecord) : Nat :=
  (l.map (recMarks qs)).sum

/-- The running-score invariant: every participant's score is the sum of
the marks of their correctly answered questions. -/
def scoreInv (s : LiveSession) : Prop :=
  ∀ p ∈ s.participants, p.score = recordedScore s.questions p.answers

instance (s : LiveSession) : Decidable (scoreInv s) := by
  unfold scoreInv
  infer_instance

/-- Participants are keyed uniquely by student identity (a JS `Map`
cannot hold two entries with one key). -/
def uniqueIds (ps : List LiveParticipant) : Prop :=
  (ps.map (·.userId)).Nodup

instance (ps : List LiveParticipant) : Decidable (uniqueIds ps) := by
  unfold uniqueIds
  infer_instance

/-- Number of registrations of student `u`. -/
def countU (ps : List LiveParticipant) (u : String) : Nat :=
  (ps.filter (fun p => p.userId = u)).length

/-- `JSON.stringify` of an integer array (as produced for the canonical
answer of `ordering` questions in `tools/index.ts` line 108). -/
def jsonStringifyIntList (l : List Int) : String :=
  "[" ++ String.intercalate "," (l.map toString) ++ "]"

/-- The canonical answer recoverable from a broadcast `options` payload:
for an `ordering` question, `options.correct_order` re-encoded is
exactly the stored `correct_answer`. -/
def answerFromOptions : QOptions → Option String
  | .ordering _ co => Option.some (jsonStringifyIntList co)
  | _ => Option.none

/-- Agreement on every field a `question` broadcast may publish
(everything except `correct_answer`). -/
def pubEq (q q' : Question) : Prop :=
  q.id = q'.id ∧ q.question_text = q'.question_text ∧
  q.question_type = q'.question_type ∧ q.options = q'.options ∧
  q.marks = q'.marks ∧ q.difficulty = q'.difficulty

/-! ## Concrete fixtures -/

/-- Q1 of the spec's end-to-end scenario: mcq, canonical `"B"`, 1 mark. -/
def qMcq : Question :=
  { id := "q1", question_text := "Pick B", question_type := "mcq",
    options := .choices ["A", "B", "C", "D"], correct_answer := "B",
    marks := 1, difficulty := "easy" }

/-- Q2 of the spec's end-to-end scenario: true/false, canonical `"True"`. -/
def qTF : Question :=
  { id := "q2", question_text := "True?", question_type := "true_false",
    options := .choices ["True", "False"], correct_answer := "True",
    marks := 1, difficulty := "easy" }

/-- A short-answer question (canonical `"photosynthesis"`, 2 marks). -/
def qShort : Question :=
  { id := "q3", question_text := "Name the process", question_type := "short_answer",
    options := .none, correct_answer := "photosynthesis",
    marks := 2, difficulty := "medium" }

/-- An ordering question exactly as the repository's question generator
produces it (`tools/index.ts` lines 103–108): the `options` column holds
`{items, correct_order}` and `correct_answer` is
`JSON.stringify(correct_order)`. -/
def qOrd : Question :=
  { id := "q4", question_text := "Order the steps", question_type := "ordering",
    options := .ordering ["Step 1", "Step 2", "Step 3", "Step 4"] [0, 1, 2, 3],
    correct_answer := "[0,1,2,3]", marks := 2, difficulty := "hard" }

/-- The 2-question demo session right after `start-live`. -/
def sDemo : LiveSession :=
  createSession "quiz1" "t" (Option.some 10) [qMcq, qTF]

/-- An ended 2-question session (reached from `sDemo` by one join, a
correct answer to Q1, and three `advance` calls). -/
def sEnded : LiveSession :=
  { quizId := "quiz1", teacherId := "t", status := .ended,
    currentQuestionIndex := 2, questionStartedAt := 100, questionTimeLimit := 300,
    participants := [{ userId := "s1", name := "S1", score := 1,
                       answers := [{ questionIndex := 0, answer := "b", correct := true,
                                     timeMs := 2000 }] }],
    questions := [qMcq, qTF] }

/-- A waiting 1-question session holding the generated ordering
question (time budget `4 * 60 / 1 = 240` seconds, as computed by
`createSession`). -/
def sOrdLive : LiveSession :=
  { quizId := "quiz2", teacherId := "t", status := .waiting,
    currentQuestionIndex := -1, questionStartedAt := 0, questionTimeLimit := 240,
    participants := [{ userId := "s1", name := "S1", score := 0, answers := [] }],
    questions := [qOrd] }

/-- Participants A, B, C, D in join order with scores 30, 50, 50, 10. -/
def psABCD : List LiveParticipant :=
  [{ userId := "a", name := "A", score := 30, answers := [] },
   { userId := "b", name := "B", score := 50, answers := [] },
   { userId := "c", name := "C", score := 50, answers := [] },
   { userId := "d", name := "D", score := 10, answers := [] }]

/-- A mid-quiz session holding the A/B/C/D participants. -/
def sABCD : LiveSession :=
  { quizId := "quiz3", teacherId := "t", status := .question,
    currentQuestionIndex := 0, questionStartedAt := 0, questionTimeLimit := 60,
    participants := psABCD, questions := [qMcq, qTF] }

/-! ## C1 -/

/-- C1: calling `advance` on a session whose status is already `ended`
is claimed to be a no-op `AlreadyEnded` error.  The `next` handler has
no such guard: on the concrete ended session `sEnded` the host's call
succeeds, increments `questionIndex` from 2 to 3, broadcasts the
`quiz_ended` leaderboard a second time, and persists a second attempt
record (with its answer record) for the participant. -/
theorem advance_after_ended_refinalizes :
  sEnded.status = .ended
  ∧ (next sEnded "t" 999).result
      = .ok { status := .ended, question_index := 3, total_questions := 2,
              leaderboard := [⟨1, "S1", 1⟩] }
  ∧ (next sEnded "t" 999).session.currentQuestionIndex = 3
  ∧ (next sEnded "t" 999).persists =
      [{ attempt := { quiz_id := "quiz1", student_id := "s1", total_marks := 2,
                      score := 1, percentage := 5000, status := "evaluated" },
         results := [{ question_id := "q1", answer_text := "b", is_correct := true,
                       marks_awarded := 1, ai_feedback := "Correct!" }] }]
  ∧ (next sEnded "t" 999).events = [.quizEnded [⟨1, "S1", 1⟩]] := by
  decide

/-! ## C2 -/

/-- C2: the session status is claimed to move only forward
(`waiting → question → ended`).  On the code, ending the fresh demo
session and then calling `advance` moves the status from `ended` back
to `question`: the `next` handler never checks the current status. -/
theorem status_regresses_after_end :
  (applyOp sDemo (.endS "t")).status = .ended
  ∧ (applyOp (applyOp sDemo (.endS "t")) (.advance "t" 50)).status = .question := by
  decide

/-! ## C3 -/

/-- C3 counterexample: on the short-answer triple
(`qShort`, canonical `"photosynthesis"`, submission
`"it is photosynthesis"`) the asynchronous path awards partial credit
(1 of 2 marks, incorrect) while the live path awards 0 marks — the two
scoring paths are not equivalent. -/
theorem live_async_scoring_differs :
  asyncScoreOne (fun _ => Option.none) (fun _ => Option.none) qShort
      "it is photosynthesis" = (false, 1)
  ∧ (liveCheck qShort "it is photosynthesis",
     liveMarks qShort "it is photosynthesis") = (false, 0) := by
  decide

/-- C3 amended: for `mcq` and `true_false` questions the two scoring
paths agree exactly (same verdict, same marks); the live path scores
every type by trimmed case-insensitive equality with full-or-nothing
marks, so for the other four types the asynchronous path may differ. -/
theorem live_async_agree_on_mcq_tf :
  ∀ (pP : String → Option (List (String × String)))
    (pI : String → Option (List Int)) (q : Question) (answer : String),
  q.question_type = "mcq" ∨ q.question_type = "true_false" →
  asyncScoreOne pP pI q answer = (liveCheck q answer, liveMarks q answer) := by
  intro pP pI q answer h
  rcases h with h | h <;> simp [asyncScoreOne, liveCheck, liveMarks, h]

/-- Witness for `live_async_agree_on_mcq_tf` at the concrete mcq
question `qMcq` and submission `"b"`. -/
theorem live_async_agree_on_mcq_tf_witness :
  (qMcq.question_type = "mcq" ∨ qMcq.question_type = "true_false")
  ∧ asyncScoreOne (fun _ => Option.none) (fun _ => Option.none) qMcq "b"
      = (liveCheck qMcq "b", liveMarks qMcq "b") :=
  ⟨Or.inl rfl,
   live_async_agree_on_mcq_tf (fun _ => Option.none) (fun _ => Option.none) qMcq "b"
     (Or.inl rfl)⟩

/-! ## C4 -/

/-- C4 counterexample: the `end` handler performs no host-identity
check.  A caller different from the recorded host ends the concrete
session `sABCD` successfully (no `Forbidden`), changing its status. -/
theorem end_ignores_host_identity :
  sABCD.teacherId ≠ "intruder"
  ∧ sABCD.status ≠ .ended
  ∧ (endSession sABCD "intruder").session.status = .ended
  ∧ (endSession sABCD "intruder").result
      = .ok { status := .ended,
              leaderboard := [⟨1, "B", 50⟩, ⟨2, "C", 50⟩, ⟨3, "A", 30⟩, ⟨4, "D", 10⟩] } := by
  decide

/-- C4 amended: only `advance` enforces host identity — a non-host
caller receives `Forbidden` (`notHost`) and the session, events and
persisted records are untouched; `end` performs no host check at all
(beyond the role middleware) and always succeeds, setting the status to
`ended` without persisting anything. -/
theorem host_check_on_advance_only :
  ∀ (s : LiveSession) (c : String) (now : Nat),
    (c ≠ s.teacherId → next s c now = errOut s .notHost)
    ∧ (endSession s c).session = { s with status := .ended }
    ∧ (endSession s c).result
        = .ok { status := .ended, leaderboard := leaderboardOf s.participants }
    ∧ (endSession s c).persists = [] := by
  intro s c now
  refine ⟨fun h => ?_, rfl, rfl, rfl⟩
  simp only [next]
  rw [if_pos (Ne.symm h)]

/-- Witness for `host_check_on_advance_only` at `sABCD` and the non-host
caller `"x"`. -/
theorem host_check_on_advance_only_witness :
  ("x" ≠ sABCD.teacherId ∧ next sABCD "x" 5 = errOut sABCD .notHost)
  ∧ (endSession sABCD "x").persists = [] :=
  ⟨⟨by decide, (host_check_on_advance_only sABCD "x" 5).1 (by decide)⟩,
   (host_check_on_advance_only sABCD "x" 5).2.2.2⟩

/-! ## C5 -/

/-- C5 counterexample: ending the concrete session `sABCD` (which has
four participants) through the `end` handler persists no attempt record
at all — only the `advance`-past-the-last-question path finalizes. -/
theorem end_persists_nothing :
  sABCD.participants ≠ []
  ∧ (endSession sABCD "t").session.status = .ended
  ∧ (endSession sABCD "t").persists = [] := by
  decide

/-! ## C7 -/

/-- C7 counterexample: the `question` broadcast forwards the `options`
column unfiltered, and for an ordering question (as the repository's
generator stores it) `options.correct_order` re-encoded is literally
the canonical answer: advancing `sOrdLive` broadcasts an event from
whose `options` field alone the exact `correct_answer` string is
recovered—and the live scorer accepts that string as correct. -/
theorem question_event_reveals_ordering_answer :
  (next sOrdLive "t" 0).events.map (fun e =>
      match e with
      | Event.question pl => answerFromOptions pl.options
      | _ => Option.none)
    = [Option.some "[0,1,2,3]"]
  ∧ (sOrdLive.questions.headD default).correct_answer = "[0,1,2,3]"
  ∧ liveCheck (sOrdLive.questions.headD default) "[0,1,2,3]" = true := by
  decide

/-- C7 amended: the broadcast `question` event carries no
`correct_answer` field — it is computed purely from the public fields
(text, type, options, marks, difficulty, index, time budget), so two
sessions whose questions agree on those fields produce identical
events; however the `options` field itself embeds the canonical answer
for `ordering` questions (`correct_order`), so the canonical answer is
nevertheless disclosed for that type. -/
theorem question_event_ignores_correct_answer :
  ∀ (s : LiveSession) (qs' : List Question) (c : String) (now : Nat),
  c = s.teacherId →
  s.currentQuestionIndex + 1 < (s.questions.length : Int) →
  List.Forall₂ pubEq s.questions qs' →
  (next { s with questions := qs' } c now).events = (next s c now).events := by
  intro s qs' c now hc hlt hrel
  have hlen : s.questions.length = qs'.length := hrel.length_eq
  have h1 : ¬ (s.teacherId ≠ c) := by simp [hc]
  have h2 : ¬ ((s.questions.length : Int) ≤ s.currentQuestionIndex + 1) := not_le.mpr hlt
  have h2' : ¬ ((qs'.length : Int) ≤ s.currentQuestionIndex + 1) := by
    rw [← hlen]
    exact h2
  have hq : pubEq ((qGet s.questions (s.currentQuestionIndex + 1)).getD default)
      ((qGet qs' (s.currentQuestionIndex + 1)).getD default) := by
    unfold qGet
    by_cases h0 : 0 ≤ s.currentQuestionIndex + 1
    · rw [if_pos h0, if_pos h0]
      have hidx : (s.currentQuestionIndex + 1).toNat < s.questions.length := by
        omega
      have hidx' : (s.currentQuestionIndex + 1).toNat < qs'.length := by
        omega
      rw [List.getElem?_eq_getElem hidx, List.getElem?_eq_getElem hidx']
      simpa using (List.forall₂_iff_get.mp hrel).2 _ hidx hidx'
    · rw [if_neg h0, if_neg h0]
      exact ⟨rfl, rfl, rfl, rfl, rfl, rfl⟩
  obtain ⟨_, hh2, hh3, hh4, hh5, hh6⟩ := hq
  simp only [next, if_neg h1, if_neg h2, if_neg h2', activeQuestion]
  simp [QuestionEvent.mk.injEq, hh2, hh3, hh4, hh5, hh6, hlen]

/-- Witness for `question_event_ignores_correct_answer`: replacing the
ordering question's canonical answer by `"censored"` leaves the
broadcast of `sOrdLive` unchanged. -/
theorem question_event_ignores_correct_answer_witness :
  ("t" = sOrdLive.teacherId
   ∧ sOrdLive.currentQuestionIndex + 1 < (sOrdLive.questions.length : Int)
   ∧ List.Forall₂ pubEq sOrdLive.questions [{ qOrd with correct_answer := "censored" }])
  ∧ (next { sOrdLive with questions := [{ qOrd with correct_answer := "censored" }] } "t" 0).events
      = (next sOrdLive "t" 0).events := by
  refine ⟨⟨rfl, by decide, ?_⟩, ?_⟩
  · exact List.Forall₂.cons (by exact ⟨rfl, rfl, rfl, rfl, rfl, rfl⟩) List.Forall₂.nil
  · exact question_event_ignores_correct_answer sOrdLive _ "t" 0 rfl (by decide)
      (List.Forall₂.cons (by exact ⟨rfl, rfl, rfl, rfl, rfl, rfl⟩) List.Forall₂.nil)

/-! ## C6 -/

/-- `find?` after a first-match update, when the update preserves the
key (the model of mutating the entry obtained from `Map.get`). -/
theorem find?_updateFirst (u : String) (f : LiveParticipant → LiveParticipant)
    (hf : ∀ p, (f p).userId = p.userId) :
    ∀ l : List LiveParticipant,
      (updateFirst u f l).find? (fun p => p.userId = u)
        = (l.find? (fun p => p.userId = u)).map f := by
  intro l
  induction l with
  | nil => simp [updateFirst]
  | cons p t ih =>
    by_cases h : p.userId = u
    · simp only [updateFirst, if_pos h]
      rw [List.find?_cons_of_pos _ (by simp [hf, h]), List.find?_cons_of_pos _ (by simp [h])]
      simp
    · simp only [updateFirst, if_neg h]
      rw [List.find?_cons_of_neg _ (by simp [h]), List.find?_cons_of_neg _ (by simp [h])]
      exact ih

/-- C6: for a participant of an active question who has not yet
answered it, the first `submitAnswer` succeeds and stores one record;
an immediately repeated submission returns `AlreadyAnswered` and leaves
the session — the stored record, the participant's score, everything —
exactly as after the first call. -/
theorem second_submission_rejected :
  ∀ (s : LiveSession) (u a1 a2 : String) (n1 n2 : Nat) (p : LiveParticipant),
  s.status = .question →
  s.participants.find? (fun x => x.userId = u) = Option.some p →
  p.answers.any (fun a => a.questionIndex = s.currentQuestionIndex) = false →
  (∃ r, (submitAnswer s u a1 n1).result = .ok r)
  ∧ (∃ p', (submitAnswer s u a1 n1).session.participants.find? (fun x => x.userId = u)
        = Option.some p'
      ∧ p'.answers = p.answers
          ++ [{ questionIndex := s.currentQuestionIndex, answer := a1,
                correct := liveCheck (activeQuestion s) a1,
                timeMs := (n1 : Int) - (s.questionStartedAt : Int) }])
  ∧ submitAnswer (submitAnswer s u a1 n1).session u a2 n2
      = errOut (submitAnswer s u a1 n1).session .alreadyAnswered := by
  intro s u a1 a2 n1 n2 p hst hfind hnoans
  have hst' : ¬ (s.status ≠ .question) := by simp [hst]
  have hout : submitAnswer s u a1 n1
      = { session :=
            { s with participants := updateFirst u (submitUpd s a1 n1) s.participants }
          events := [Event.answerUpdate
            ((updateFirst u (submitUpd s a1 n1) s.participants).filter (fun q =>
                q.answers.any (fun a => a.questionIndex = s.currentQuestionIndex))).length
            (updateFirst u (submitUpd s a1 n1) s.participants).length]
          persists := []
          result := .ok { correct := liveCheck (activeQuestion s) a1,
                          score := (submitUpd s a1 n1 p).score } } := by
    simp only [submitAnswer, if_neg hst', hfind, hnoans]
    simp
  have hfu : (updateFirst u (submitUpd s a1 n1) s.participants).find?
      (fun x => x.userId = u) = Option.some (submitUpd s a1 n1 p) := by
    rw [find?_updateFirst u (submitUpd s a1 n1) (fun q => rfl) s.participants, hfind]
    rfl
  refine ⟨⟨_, by rw [hout]⟩, ?_, ?_⟩
  · rw [hout]
    exact ⟨_, hfu, by simp [submitUpd]⟩
  · rw [hout]
    simp only [submitAnswer]
    rw [if_neg (by simp [hst])]
    rw [hfu]
    simp [submitUpd, hnoans]

/-- Witness for `second_submission_rejected`: participant `"a"` of
`sABCD` submits twice on question 0. -/
theorem second_submission_rejected_witness :
  (sABCD.status = .question
   ∧ sABCD.participants.find? (fun x => x.userId = "a")
       = Option.some { userId := "a", name := "A", score := 30, answers := [] }
   ∧ (({ userId := "a", name := "A", score := 30, answers := [] }
        : LiveParticipant).answers.any
        (fun a => a.questionIndex = sABCD.currentQuestionIndex)) = false)
  ∧ ((∃ r, (submitAnswer sABCD "a" "B" 5).result = .ok r)
     ∧ (∃ p', (submitAnswer sABCD "a" "B" 5).session.participants.find?
            (fun x => x.userId = "a") = Option.some p'
         ∧ p'.answers = ({ userId := "a", name := "A", score := 30, answers := [] }
              : LiveParticipant).answers
            ++ [{ questionIndex := sABCD.currentQuestionIndex, answer := "B",
                  correct := liveCheck (activeQuestion sABCD) "B",
                  timeMs := ((5 : Nat) : Int) - (sABCD.questionStartedAt : Int) }])
     ∧ submitAnswer (submitAnswer sABCD "a" "B" 5).session "a" "x" 9
         = errOut (submitAnswer sABCD "a" "B" 5).session .alreadyAnswered) :=
  ⟨⟨rfl, by decide, by decide⟩,
   second_submission_rejected sABCD "a" "B" "x" 5 9
     { userId := "a", name := "A", score := 30, answers := [] }
     rfl (by decide) (by decide)⟩

/-! ## C8 -/

/-- Inserting into the descending sort is a permutation of consing. -/
theorem insertDesc_perm (p : LiveParticipant) (l : List LiveParticipant) :
    List.Perm (insertDesc p l) (p :: l) := by
  induction l with
  | nil => exact List.Perm.refl _
  | cons q t ih =>
    simp only [insertDesc]
    split
    · exact List.Perm.refl _
    · exact (ih.cons q).trans (List.Perm.swap p q t)

/-- `sortDesc` permutes its input. -/
theorem sortDesc_perm (l : List LiveParticipant) : List.Perm (sortDesc l) l := by
  induction l with
  | nil => exact List.Perm.refl _
  | cons p t ih => exact (insertDesc_perm p (sortDesc t)).trans (ih.cons p)

/-- Insertion preserves the score-descending chain. -/
theorem insertDesc_pairwise (p : LiveParticipant) (l : List LiveParticipant)
    (h : l.Pairwise (fun a b => b.score ≤ a.score)) :
    (insertDesc p l).Pairwise (fun a b => b.score ≤ a.score) := by
  induction l with
  | nil => simp [insertDesc]
  | cons q t ih =>
    rcases List.pairwise_cons.mp h with ⟨hq, ht⟩
    simp only [insertDesc]
    split
    · rename_i hle
      refine List.pairwise_cons.mpr ⟨?_, h⟩
      intro b hb
      rcases List.mem_cons.mp hb with hb | hb
      · subst hb
        exact hle
      · exact le_trans (hq b hb) hle
    · rename_i hgt
      refine List.pairwise_cons.mpr ⟨?_, ih ht⟩
      intro b hb
      rcases List.mem_cons.mp ((insertDesc_perm p t).mem_iff.mp hb) with hb | hb
      · subst hb
        omega
      · exact hq b hb

/-- `sortDesc` sorts by score, descending. -/
theorem sortDesc_pairwise (l : List LiveParticipant) :
    (sortDesc l).Pairwise (fun a b => b.score ≤ a.score) := by
  induction l with
  | nil => exact List.Pairwise.nil
  | cons p t ih => exact insertDesc_pairwise p _ ih

/-- Stability of insertion: the participants holding any fixed score
keep their relative order. -/
theorem filter_insertDesc (p : LiveParticipant) (sc : Nat) :
    ∀ l : List LiveParticipant,
      (insertDesc p l).filter (fun x => x.score = sc)
        = (if p.score = sc then [p] else []) ++ l.filter (fun x => x.score = sc) := by
  intro l
  induction l with
  | nil =>
    by_cases hp : p.score = sc <;> simp [insertDesc, List.filter_cons, hp]
  | cons q t ih =>
    simp only [insertDesc]
    split
    · rename_i hle
      by_cases hp : p.score = sc <;> simp [List.filter_cons, hp]
    · rename_i hgt
      by_cases hp : p.score = sc
      · have hq : ¬ (q.score = sc) := by omega
        simp [List.filter_cons, hp, hq, ih]
      · by_cases hq : q.score = sc <;> simp [List.filter_cons, hp, hq, ih]

/-- Stability of the whole sort. -/
theorem filter_sortDesc (sc : Nat) (l : List LiveParticipant) :
    (sortDesc l).filter (fun x => x.score = sc) = l.filter (fun x => x.score = sc) := by
  induction l with
  | nil => rfl
  | cons p t ih =>
    simp only [sortDesc]
    rw [filter_insertDesc, ih]
    by_cases hp : p.score = sc <;> simp [List.filter_cons, hp]

/-- C8: the leaderboard sort is exactly "score descending, ties in join
order": it permutes the participants, its output is score-descending,
and for every score value the participants holding it appear in their
original (join) order — no secondary tie-break.  On the concrete
session with join order A, B, C, D and scores 30, 50, 50, 10 the final
leaderboard broadcast by `end` is B(50), C(50), A(30), D(10). -/
theorem leaderboard_stable_sort :
  (∀ ps : List LiveParticipant,
      (sortDesc ps).Perm ps
      ∧ (sortDesc ps).Pairwise (fun a b => b.score ≤ a.score)
      ∧ (∀ sc : Nat, (sortDesc ps).filter (fun x => x.score = sc)
          = ps.filter (fun x => x.score = sc)))
  ∧ (endSession sABCD "t").events
      = [.quizEnded [⟨1, "B", 50⟩, ⟨2, "C", 50⟩, ⟨3, "A", 30⟩, ⟨4, "D", 10⟩]] :=
  ⟨fun ps => ⟨sortDesc_perm ps, sortDesc_pairwise ps, fun sc => filter_sortDesc sc ps⟩,
   by decide⟩

/-! ## C9 -/

/-- `countU` distributes over cons. -/
theorem countU_cons (p : LiveParticipant) (t : List LiveParticipant) (u : String) :
    countU (p :: t) u = (if p.userId = u then 1 else 0) + countU t u := by
  by_cases h : p.userId = u
  · simp [countU, List.filter_cons, h]
    omega
  · simp [countU, List.filter_cons, h]

/-- `countU` distributes over append. -/
theorem countU_append (l1 l2 : List LiveParticipant) (u : String) :
    countU (l1 ++ l2) u = countU l1 u + countU l2 u := by
  simp [countU, List.filter_append]

/-- An identity absent from the id multiset is registered zero times. -/
theorem countU_eq_zero_of_not_mem_map (u : String) :
    ∀ t : List LiveParticipant, u ∉ t.map (fun p => p.userId) → countU t u = 0 := by
  intro t
  induction t with
  | nil => intro _; rfl
  | cons q r ih =>
    intro h
    simp only [List.map_cons, List.mem_cons, not_or] at h
    rw [countU_cons, if_neg (fun hq => h.1 hq.symm), ih h.2]

/-- Unique keying bounds every registration count by one. -/
theorem countU_le_one (ps : List LiveParticipant) (u : String) (h : uniqueIds ps) :
    countU ps u ≤ 1 := by
  induction ps with
  | nil => simp [countU]
  | cons p t ih =>
    rcases List.nodup_cons.mp h with ⟨hp, ht⟩
    rw [countU_cons]
    by_cases hu : p.userId = u
    · rw [countU_eq_zero_of_not_mem_map u t (hu ▸ hp)]
      simp [hu]
    · simpa [hu] using ih ht

/-- A present participant is registered exactly once under unique keys. -/
theorem countU_eq_one_of_mem (ps : List LiveParticipant) (p : LiveParticipant)
    (h : uniqueIds ps) (hm : p ∈ ps) : countU ps p.userId = 1 := by
  induction ps with
  | nil => cases hm
  | cons q t ih =>
    rcases List.nodup_cons.mp h with ⟨hq, ht⟩
    rcases List.mem_cons.mp hm with rfl | hm'
    · rw [countU_cons, if_pos rfl, countU_eq_zero_of_not_mem_map p.userId t hq]
    · have hne : ¬ (q.userId = p.userId) := by
        intro he
        apply hq
        show q.userId ∈ List.map (fun x => x.userId) t
        rw [he]
        exact List.mem_map_of_mem (fun x => x.userId) hm'
      rw [countU_cons, if_neg hne, ih ht hm']

/-- A `join` by an already-registered student returns the summary and
does nothing else. -/
theorem join_already_registered (s : LiveSession) (u n : String)
    (h : ¬ s.status = .ended)
    (hreg : s.participants.any (fun p => p.userId = u) = true) :
    join s u n = { session := s, events := [], persists := [],
                   result := .ok { status := s.status,
                                   participant_count := s.participants.length,
                                   question_count := s.questions.length } } := by
  simp [join, if_neg h, hreg]

/-- After any non-`ended` `join`, the student is registered; status and
questions are untouched, and unique keying keeps the registration count
at most one. -/
theorem join_registers (s : LiveSession) (u n : String) (h : ¬ s.status = .ended) :
    ((join s u n).session.participants.any (fun p => p.userId = u)) = true
    ∧ (join s u n).session.status = s.status
    ∧ (uniqueIds s.participants → countU (join s u n).session.participants u ≤ 1) := by
  cases hreg : s.participants.any (fun p => p.userId = u) with
  | true =>
    have hsame0 : (join s u n).session = s := by
      simp [join, if_neg h, hreg]
    refine ⟨by rw [hsame0]; exact hreg, by rw [hsame0], ?_⟩
    intro hu
    have hle := countU_le_one s.participants u hu
    have hsame : (join s u n).session.participants = s.participants := by
      simp [join, if_neg h, hreg]
    rw [hsame]
    exact hle
  | false =>
    have hsess : (join s u n).session
        = { s with participants :=
              s.participants ++ [{ userId := u, name := n, score := 0, answers := [] }] } := by
      simp [join, if_neg h, hreg]
    refine ⟨by rw [hsess]; simp, by rw [hsess], ?_⟩
    intro hu
    have hz : countU s.participants u = 0 := by
      refine countU_eq_zero_of_not_mem_map u s.participants ?_
      intro hmem
      rcases List.mem_map.mp hmem with ⟨q, hq, hqe⟩
      have hfalse := List.any_eq_false.mp hreg q hq
      simp [hqe] at hfalse
    rw [hsess]
    show countU (s.participants
        ++ [{ userId := u, name := n, score := 0, answers := [] }]) u ≤ 1
    rw [countU_append, hz, countU_cons]
    simp [countU]

/-- C9: `join` is idempotent per student.  For a session that has not
ended, a second `join` by the same student is a pure no-op: it changes
nothing (so the first registration, score and answer records survive),
broadcasts nothing, and still returns the current session summary; with
unique keying the student is registered at most once.  Joining an ended
session is rejected with `SessionEnded` and changes nothing. -/
theorem join_idempotent :
  ∀ (s : LiveSession) (u n1 n2 : String),
  (s.status ≠ .ended →
    (join (join s u n1).session u n2)
      = { session := (join s u n1).session, events := [], persists := [],
          result := .ok { status := (join s u n1).session.status,
                          participant_count := (join s u n1).session.participants.length,
                          question_count := (join s u n1).session.questions.length } }
    ∧ ((join s u n1).session.participants.any (fun p => p.userId = u)) = true
    ∧ (uniqueIds s.participants → countU (join s u n1).session.participants u ≤ 1))
  ∧ (s.status = .ended → join s u n1 = errOut s .sessionEnded) := by
  intro s u n1 n2
  refine ⟨fun h => ?_, fun h => by simp [join, if_pos h]⟩
  obtain ⟨hany, hstat, hcount⟩ := join_registers s u n1 h
  exact ⟨join_already_registered _ u n2 (by rw [hstat]; exact h) hany, hany, hcount⟩

/-- Witness for `join_idempotent`: student `"e"` joins `sABCD` twice,
and a late student is rejected by the ended session `sEnded`. -/
theorem join_idempotent_witness :
  (sABCD.status ≠ .ended
   ∧ (join (join sABCD "e" "Eve" ).session "e" "Eve2")
       = { session := (join sABCD "e" "Eve").session, events := [], persists := [],
           result := .ok { status := (join sABCD "e" "Eve").session.status,
                           participant_count :=
                             (join sABCD "e" "Eve").session.participants.length,
                           question_count :=
                             (join sABCD "e" "Eve").session.questions.length } })
  ∧ (sEnded.status = .ended ∧ join sEnded "z" "Zoe" = errOut sEnded .sessionEnded) :=
  ⟨⟨by decide, ((join_idempotent sABCD "e" "Eve" "Eve2").1 (by decide)).1⟩,
   ⟨rfl, (join_idempotent sEnded "z" "Zoe" "Zoe").2 rfl⟩⟩

/-! ## C5 (amended part) -/

/-- `filterMap` keeps exactly the elements whose image is `some`. -/
theorem length_filterMap_isSome {α β : Type} (f : α → Option β) (l : List α) :
    (l.filterMap f).length = (l.filter (fun a => (f a).isSome)).length := by
  induction l with
  | nil => rfl
  | cons a t ih =>
    cases hfa : f a <;> simp [List.filterMap_cons, List.filter_cons, hfa, ih]

/-- C5 amended: finalization happens only on the `advance` path.  When
the host's `advance` moves the index past the last question the session
ends and, for every participant, exactly one attempt record is
persisted (under unique keying) carrying the participant's running
score, the sum of all question marks as the total, the rounded
percentage, status `"evaluated"`, and one answer-result record per
answered question whose index resolves to a question; the `end` handler
broadcasts the final leaderboard but never persists anything. -/
theorem finalization_on_advance_only :
  ∀ (s : LiveSession) (c : String) (now : Nat),
  c = s.teacherId →
  (s.questions.length : Int) ≤ s.currentQuestionIndex + 1 →
  uniqueIds s.participants →
  ((next s c now).session.status = .ended
   ∧ (next s c now).persists.length = s.participants.length
   ∧ (∀ p ∈ s.participants,
        ((next s c now).persists.filter
          (fun r => r.attempt.student_id = p.userId)).length = 1)
   ∧ (∀ p ∈ s.participants, ∀ r ∈ (next s c now).persists,
        r.attempt.student_id = p.userId →
          r.attempt.score = p.score
          ∧ r.attempt.total_marks = (s.questions.map (·.marks)).sum
          ∧ r.attempt.percentage
              = pctHundredths p.score ((s.questions.map (·.marks)).sum)
          ∧ r.attempt.status = "evaluated"
          ∧ r.results.length = (p.answers.filter
              (fun a => (qGet s.questions a.questionIndex).isSome)).length))
  ∧ (∀ (s' : LiveSession) (c' : String), (endSession s' c').persists = []) := by
  intro s c now hc hlen hu
  have h1 : ¬ (s.teacherId ≠ c) := by simp [hc]
  have hpers : (next s c now).persists
      = s.participants.map (finalizeParticipant
          { s with currentQuestionIndex := s.currentQuestionIndex + 1, status := .ended }) := by
    simp [next, if_neg h1, if_pos hlen]
  have hstudent : ∀ q : LiveParticipant,
      (finalizeParticipant
        { s with currentQuestionIndex := s.currentQuestionIndex + 1, status := .ended }
        q).attempt.student_id = q.userId := fun _ => rfl
  refine ⟨⟨?_, ?_, ?_, ?_⟩, fun _ _ => rfl⟩
  · simp [next, if_neg h1, if_pos hlen]
  · rw [hpers, List.length_map]
  · intro p hp
    rw [hpers, List.filter_map]
    rw [List.length_map]
    have : (List.filter ((fun r => decide (r.attempt.student_id = p.userId)) ∘
        (finalizeParticipant
          { s with currentQuestionIndex := s.currentQuestionIndex + 1, status := .ended }))
        s.participants)
        = List.filter (fun q => decide (q.userId = p.userId)) s.participants := by
      apply List.filter_congr
      intro q _
      simp [Function.comp, hstudent q]
    rw [this]
    exact countU_eq_one_of_mem s.participants p hu hp
  · intro p hp r hr hrid
    rw [hpers] at hr
    rcases List.mem_map.mp hr with ⟨q, hq, rfl⟩
    have hqp : q = p := by
      refine List.inj_on_of_nodup_map hu hq hp ?_
      rw [← hstudent q, hrid]
    subst hqp
    refine ⟨rfl, rfl, rfl, rfl, ?_⟩
    show ((q.answers.filterMap _).length = _)
    rw [length_filterMap_isSome]
    apply congrArg
    apply List.filter_congr
    intro a _
    cases hget : qGet s.questions a.questionIndex <;> simp [hget]

/-- Witness for `finalization_on_advance_only`: advancing the ended
two-question session `sEnded` past its last question. -/
theorem finalization_on_advance_only_witness :
  (next sEnded "t" 999).session.status = .ended
  ∧ (next sEnded "t" 999).persists.length = sEnded.participants.length
  ∧ (∀ (s' : LiveSession) (c' : String), (endSession s' c').persists = []) :=
  ⟨((finalization_on_advance_only sEnded "t" 999 rfl (by decide) (by decide)).1).1,
   ((finalization_on_advance_only sEnded "t" 999 rfl (by decide) (by decide)).1).2.1,
   (finalization_on_advance_only sEnded "t" 999 rfl (by decide) (by decide)).2⟩

/-! ## C10 -/

/-- Membership after a first-match update comes from an untouched
element or from the image of a member. -/
theorem mem_updateFirst {p' : LiveParticipant} (u : String)
    (f : LiveParticipant → LiveParticipant) :
    ∀ l : List LiveParticipant,
      p' ∈ updateFirst u f l → p' ∈ l ∨ ∃ q ∈ l, p' = f q := by
  intro l
  induction l with
  | nil => simp [updateFirst]
  | cons q t ih =>
    simp only [updateFirst]
    split
    · intro hm
      rcases List.mem_cons.mp hm with rfl | hm'
      · exact Or.inr ⟨q, List.mem_cons_self q t, rfl⟩
      · exact Or.inl (List.mem_cons_of_mem _ hm')
    · intro hm
      rcases List.mem_cons.mp hm with rfl | hm'
      · exact Or.inl (List.mem_cons_self p' t)
      · rcases ih hm' with hin | ⟨r, hr, hrr⟩
        · exact Or.inl (List.mem_cons_of_mem _ hin)
        · exact Or.inr ⟨r, List.mem_cons_of_mem _ hr, hrr⟩

/-- Appending an answer record adds exactly its score contribution. -/
theorem recordedScore_append (qs : List Question) (l : List AnswerRecord)
    (a : AnswerRecord) :
    recordedScore qs (l ++ [a]) = recordedScore qs l + recMarks qs a := by
  simp [recordedScore]

/-- The participant update of an accepted submission preserves the
running-score invariant: the score delta (the active question's full
marks when correct, 0 otherwise) is exactly the contribution of the
appended record. -/
theorem submitUpd_score (s : LiveSession) (a : String) (n : Nat)
    (p : LiveParticipant) (h : p.score = recordedScore s.questions p.answers) :
    (submitUpd s a n p).score = recordedScore s.questions (submitUpd s a n p).answers := by
  show p.score + _ = recordedScore s.questions (p.answers ++ [_])
  rw [recordedScore_append, ← h]
  apply congrArg
  show (if liveCheck (activeQuestion s) a then (activeQuestion s).marks else 0)
      = recMarks s.questions _
  rw [recMarks]
  simp only [activeQuestion]
  cases hget : qGet s.questions s.currentQuestionIndex with
  | none =>
    simp only [hget, Option.getD_none, Option.map_none]
    exact if_congr (by simp) rfl rfl
  | some q0 => simp [hget]

/-- `join` preserves the running-score invariant. -/
theorem scoreInv_join (s : LiveSession) (u n : String) (h : scoreInv s) :
    scoreInv (join s u n).session := by
  by_cases hs : s.status = .ended
  · simpa [join, if_pos hs, errOut] using h
  · cases hreg : s.participants.any (fun p => p.userId = u) with
    | true => simpa [join, if_neg hs, hreg] using h
    | false =>
      intro p hp
      have hp' : p ∈ s.participants
          ∨ p = { userId := u, name := n, score := 0, answers := [] } := by
        simpa [join, if_neg hs, hreg, List.mem_append] using hp
      have hqs : (join s u n).session.questions = s.questions := by
        simp [join, if_neg hs, hreg]
      rw [hqs]
      rcases hp' with hp' | rfl
      · exact h p hp'
      · rfl

/-- `next` preserves the running-score invariant (participants, their
answers and the question list are untouched). -/
theorem scoreInv_next (s : LiveSession) (c : String) (now : Nat) (h : scoreInv s) :
    scoreInv (next s c now).session := by
  by_cases hteq : s.teacherId ≠ c
  · simpa [next, if_pos hteq, errOut] using h
  · by_cases hlen : ((s.questions.length : Int) ≤ s.currentQuestionIndex + 1)
    · intro p hp
      have hps : (next s c now).session.participants = s.participants := by
        simp [next, if_neg hteq, if_pos hlen]
      have hqs : (next s c now).session.questions = s.questions := by
        simp [next, if_neg hteq, if_pos hlen]
      rw [hqs]
      exact h p (hps ▸ hp)
    · intro p hp
      have hps : (next s c now).session.participants = s.participants := by
        simp [next, if_neg hteq, if_neg hlen]
      have hqs : (next s c now).session.questions = s.questions := by
        simp [next, if_neg hteq, if_neg hlen]
      rw [hqs]
      exact h p (hps ▸ hp)

/-- `submitAnswer` preserves the running-score invariant. -/
theorem scoreInv_submit (s : LiveSession) (u a : String) (now : Nat)
    (h : scoreInv s) : scoreInv (submitAnswer s u a now).session := by
  by_cases hst : s.status ≠ .question
  · simpa [submitAnswer, if_pos hst, errOut] using h
  · cases hf : s.participants.find? (fun p => p.userId = u) with
    | none =>
      intro p hp
      simp only [submitAnswer, if_neg hst, hf] at hp ⊢
      exact h p hp
    | some p0 =>
      by_cases hans : (p0.answers.any
          (fun x => x.questionIndex = s.currentQuestionIndex)) = true
      · intro p hp
        simp only [submitAnswer, if_neg hst, hf, hans, if_pos] at hp ⊢
        exact h p hp
      · intro p hp
        have hsess : (submitAnswer s u a now).session
            = { s with participants :=
                  updateFirst u (submitUpd s a now) s.participants } := by
          simp [submitAnswer, if_neg hst, hf, hans]
        rw [hsess] at hp ⊢
        rcases mem_updateFirst u (submitUpd s a now) s.participants hp with hin | ⟨q, hq, rfl⟩
        · exact h p hin
        · exact submitUpd_score s a now q (h q hq)

/-- Every live entry point preserves the running-score invariant. -/
theorem scoreInv_applyOp (s : LiveSession) (op : Op) (h : scoreInv s) :
    scoreInv (applyOp s op) := by
  cases op with
  | join u n => exact scoreInv_join s u n h
  | advance c now => exact scoreInv_next s c now h
  | submit u a now => exact scoreInv_submit s u a now h
  | endS c => exact fun p hp => h p hp

/-- C10: in every reachable session state each participant's running
score equals the sum of the marks of the questions they answered
correctly (`join` starts at 0 with no records; an accepted submission
adds the active question's full marks exactly when scored correct), and
every attempt record persisted at finalization carries exactly that
sum as its score. -/
theorem running_score_invariant :
  (∀ s : LiveSession, Reachable s → scoreInv s)
  ∧ (∀ (s : LiveSession) (c : String) (now : Nat), scoreInv s →
      ∀ r ∈ (next s c now).persists, ∃ p ∈ s.participants,
        r.attempt.student_id = p.userId
        ∧ r.attempt.score = recordedScore s.questions p.answers) := by
  constructor
  · intro s hs
    induction hs with
    | init qid tid tl qs =>
      intro p hp
      simp [createSession] at hp
    | step op hs ih => exact scoreInv_applyOp _ op ih
  · intro s c now hinv r hr
    by_cases hteq : s.teacherId ≠ c
    · simp [next, if_pos hteq, errOut] at hr
    · by_cases hlen : ((s.questions.length : Int) ≤ s.currentQuestionIndex + 1)
      · have hpers : (next s c now).persists
            = s.participants.map (finalizeParticipant
                { s with currentQuestionIndex := s.currentQuestionIndex + 1,
                         status := .ended }) := by
          simp [next, if_neg hteq, if_pos hlen]
        rw [hpers] at hr
        rcases List.mem_map.mp hr with ⟨p, hp, rfl⟩
        exact ⟨p, hp, rfl, (hinv p hp).symm ▸ rfl⟩
      · simp [next, if_neg hteq, if_neg hlen] at hr

/-- Witness for `running_score_invariant`: the invariant at a freshly
created session, and the persisted scores of `sEnded`'s finalization. -/
theorem running_score_invariant_witness :
  scoreInv (createSession "quiz9" "t9" (Option.some 10) [qMcq])
  ∧ (∀ r ∈ (next sEnded "t" 999).persists, ∃ p ∈ sEnded.participants,
       r.attempt.student_id = p.userId
       ∧ r.attempt.score = recordedScore sEnded.questions p.answers) :=
  ⟨running_score_invariant.1 _ (Reachable.init "quiz9" "t9" (Option.some 10) [qMcq]),
   running_score_invariant.2 sEnded "t" 999 (by decide)⟩

end SmartQuiz
